import Mathlib

/-!
# RISC-V extension-A registration stub (`riscv-ext-a.cpp`)

Shallow embedding of `debugger::addIsaExtensionA` from
`src/debugger/src/cpu_fnc_plugin/riscv-ext-a.cpp`.

The body of the routine is one live statement,

    data->csr[CSR_mcpuid] |= (1LL << ('A' - 'A'));

preceded by a block comment holding the (disabled) `addInstr` calls.

Conventions of the embedding:

* a `uint64_t` register is a `Nat` reduced `% 2 ^ 64` at every store;
* the C array `csr[]` is a `List Nat`; reading or writing past its end is
  undefined behaviour in C and is the only way the model returns `none`;
* the two pointer arguments become explicit state passing: the routine maps
  the pair (CPU state, output collection) to the pair after the call.
-/

namespace debugger

/-- Number of bits in a `uint64_t` control/status register. -/
def csrBits : Nat := 64

/-- Modelled from the spec: the declaration of `CpuDataType` (header
`riscv-isa.h`) is not among the sources.  The field `csr` is the array the
source indexes as `data->csr[CSR_mcpuid]` (the spec's capability bitfield lives
in it); every other field of the C structure is kept, uninterpreted, in
`rest`. -/
structure CpuDataType (ρ : Type) where
  csr : List Nat
  rest : ρ
deriving DecidableEq

/-- Modelled from the spec: the declaration of `AttributeType` (header
`api_utils.h`) is not among the sources.  The spec calls it an output
collection that supports append of instruction descriptors; it is a list of
descriptors of an arbitrary type `δ`. -/
abbrev AttributeType (δ : Type) := List δ

/-- The mask `(1LL << ('A' - 'A'))` of the source, converted to `uint64_t`
as the compound assignment does with its right operand. -/
def extMaskA : Nat := (1 <<< ('A'.toNat - 'A'.toNat)) % 2 ^ csrBits

/-- The compound assignment `data->csr[idx] |= m` on a `uint64_t` array:
read the register, OR the mask in, store the 64-bit result back.  `none` is an
index outside the array. -/
def csrOrAssign {ρ : Type} (data : CpuDataType ρ) (idx m : Nat) : Option (CpuDataType ρ) :=
  match data.csr[idx]? with
  | none => none
  | some v => some { data with csr := data.csr.set idx ((v ||| m) % 2 ^ csrBits) }

/-- The source routine `void addIsaExtensionA(CpuDataType *data, AttributeType *out)`.
All `addInstr(..., out)` calls are inside a block comment, so the only live
statement is `data->csr[CSR_mcpuid] |= (1LL << ('A' - 'A'))`; `out` is passed
through untouched.  The constant `CSR_mcpuid` (declared in a header that is
not among the sources) is a parameter. -/
def addIsaExtensionA {ρ δ : Type} (CSR_mcpuid : Nat) (data : CpuDataType ρ)
    (out : AttributeType δ) : Option (CpuDataType ρ × AttributeType δ) :=
  match csrOrAssign data CSR_mcpuid extMaskA with
  | none => none
  | some data' => some (data', out)

/-- Every register of the CPU state holds a 64-bit value (the type invariant
of `uint64_t csr[]`). -/
def CpuDataType.wf {ρ : Type} (data : CpuDataType ρ) : Prop :=
  ∀ v ∈ data.csr, v < 2 ^ csrBits

instance {ρ : Type} (data : CpuDataType ρ) : Decidable data.wf := by
  unfold CpuDataType.wf; infer_instance

/-! ## Helper lemmas -/

theorem extMaskA_eq_one : extMaskA = 1 := by decide

theorem lt_length_of_getElem? {α : Type} {l : List α} {i : Nat} {a : α}
    (h : l[i]? = some a) : i < l.length := by
  by_contra hn
  have : l[i]? = none := List.getElem?_eq_none (Nat.le_of_not_lt hn)
  rw [this] at h
  cases h

theorem or_one_lt {v : Nat} (h : v < 2 ^ csrBits) : v ||| 1 < 2 ^ csrBits :=
  Nat.or_lt_two_pow h (by decide)

theorem csrOrAssign_eq {ρ : Type} (data : CpuDataType ρ) (idx m v : Nat)
    (h : data.csr[idx]? = some v) :
    csrOrAssign data idx m
      = some { data with csr := data.csr.set idx ((v ||| m) % 2 ^ csrBits) } := by
  simp [csrOrAssign, h]

theorem addIsaExtensionA_eq {ρ δ : Type} (CSR_mcpuid : Nat) (data : CpuDataType ρ)
    (out : AttributeType δ) (v : Nat) (h : data.csr[CSR_mcpuid]? = some v) :
    addIsaExtensionA CSR_mcpuid data out
      = some ({ data with csr := data.csr.set CSR_mcpuid ((v ||| 1) % 2 ^ csrBits) }, out) := by
  unfold addIsaExtensionA
  rw [csrOrAssign_eq data CSR_mcpuid extMaskA v h, extMaskA_eq_one]

theorem getElem?_set_self_of_some {α : Type} {l : List α} {i : Nat} {a b : α}
    (h : l[i]? = some a) : (l.set i b)[i]? = some b := by
  have hlt := lt_length_of_getElem? h
  simp [List.getElem?_set, hlt]

theorem getElem?_of_lt {α : Type} {l : List α} {i : Nat} (h : i < l.length) :
    ∃ a, l[i]? = some a :=
  ⟨l[i], List.getElem?_eq_getElem h⟩

/-- Storing a 64-bit OR result and OR-ing again is the same as OR-ing both
masks at once and storing: reduction `% 2 ^ 64` commutes with bitwise OR. -/
theorem or_mod_or_mod (v a b : Nat) :
    (((v ||| a) % 2 ^ csrBits) ||| b) % 2 ^ csrBits = ((v ||| a) ||| b) % 2 ^ csrBits := by
  apply Nat.eq_of_testBit_eq
  intro i
  simp only [Nat.testBit_mod_two_pow, Nat.testBit_or]
  cases decide (i < csrBits) <;> simp

theorem or_one_mod_testBit_zero (v : Nat) : ((v ||| 1) % 2 ^ csrBits).testBit 0 = true := by
  rw [Nat.testBit_mod_two_pow, Nat.testBit_or]
  simp [csrBits]

theorem or_mod_testBit_of_testBit (v m k : Nat) (hk : k < csrBits) (hb : v.testBit k = true) :
    ((v ||| m) % 2 ^ csrBits).testBit k = true := by
  rw [Nat.testBit_mod_two_pow, Nat.testBit_or, hb]
  simp [hk]

theorem csrOrAssign_csrOrAssign {ρ : Type} (data : CpuDataType ρ) (idx a b v : Nat)
    (h : data.csr[idx]? = some v) :
    (csrOrAssign data idx a).bind (fun d => csrOrAssign d idx b)
      = some { data with csr := data.csr.set idx (((v ||| a) ||| b) % 2 ^ csrBits) } := by
  rw [csrOrAssign_eq data idx a v h, Option.some_bind]
  rw [csrOrAssign_eq _ idx b ((v ||| a) % 2 ^ csrBits) (getElem?_set_self_of_some h)]
  simp only [List.set_set, or_mod_or_mod]

theorem set_wf {ρ : Type} (data : CpuDataType ρ) (idx x : Nat) (hw : data.wf)
    (hx : x < 2 ^ csrBits) : ({ data with csr := data.csr.set idx x } : CpuDataType ρ).wf := by
  intro v hv
  rcases List.mem_or_eq_of_mem_set hv with h | h
  · exact hw v h
  · exact h ▸ hx

/-! ## Claims -/

/-- C1: when the capability register `csr[CSR_mcpuid]` exists and holds the
64-bit value `old`, the call returns and the register then holds `old ||| 1`:
the mask is exactly 1, bit 0 is set, every other bit keeps its prior value,
and from a zeroed register the value after the call is exactly 1. -/
theorem addIsaExtensionA_mcpuid_or_one {ρ δ : Type} (CSR_mcpuid : Nat)
    (data : CpuDataType ρ) (out : AttributeType δ) (old : Nat)
    (hget : data.csr[CSR_mcpuid]? = some old) (hw : old < 2 ^ csrBits) :
    extMaskA = 1 ∧
    ∃ data' out', addIsaExtensionA CSR_mcpuid data out = some (data', out') ∧
      data'.csr[CSR_mcpuid]? = some (old ||| 1) ∧
      (old ||| 1).testBit 0 = true ∧
      (∀ k, k ≠ 0 → (old ||| 1).testBit k = old.testBit k) ∧
      (old = 0 → data'.csr[CSR_mcpuid]? = some 1) := by
  refine ⟨extMaskA_eq_one, _, out, addIsaExtensionA_eq CSR_mcpuid data out old hget, ?_, ?_, ?_, ?_⟩
  · show (data.csr.set CSR_mcpuid ((old ||| 1) % 2 ^ csrBits))[CSR_mcpuid]? = _
    rw [getElem?_set_self_of_some hget, Nat.mod_eq_of_lt (or_one_lt hw)]
  · simp [Nat.testBit_or]
  · intro k hk
    rw [Nat.testBit_or]
    have : Nat.testBit 1 k = false := by
      cases k with
      | zero => exact absurd rfl hk
      | succ n => simp [Nat.testBit_succ]
    rw [this, Bool.or_false]
  · intro h0
    subst h0
    show (data.csr.set CSR_mcpuid ((0 ||| 1) % 2 ^ csrBits))[CSR_mcpuid]? = _
    rw [getElem?_set_self_of_some hget]
    rfl

theorem addIsaExtensionA_mcpuid_or_one_witness :
    extMaskA = 1 ∧
    ∃ data' out', addIsaExtensionA 1 (⟨[6, 0, 9], ()⟩ : CpuDataType Unit) ([] : AttributeType Nat)
        = some (data', out') ∧
      data'.csr[1]? = some (0 ||| 1) ∧
      (0 ||| 1).testBit 0 = true ∧
      (∀ k, k ≠ 0 → (0 ||| 1).testBit k = Nat.testBit 0 k) ∧
      (0 = 0 → data'.csr[1]? = some 1) :=
  addIsaExtensionA_mcpuid_or_one 1 ⟨[6, 0, 9], ()⟩ [] 0 (by decide) (by decide)

/-- C2: when the capability register exists, the call returns with the output
collection identical to the one passed in (same elements, same length, zero
descriptors appended), whatever it held before, although bit 0 of the
capability register is set by the same call. -/
theorem addIsaExtensionA_out_unchanged {ρ δ : Type} (CSR_mcpuid : Nat)
    (data : CpuDataType ρ) (out : AttributeType δ)
    (hin : CSR_mcpuid < data.csr.length) :
    ∃ data' out', addIsaExtensionA CSR_mcpuid data out = some (data', out') ∧
      out' = out ∧ out'.length = out.length + 0 ∧
      ∃ new, data'.csr[CSR_mcpuid]? = some new ∧ new.testBit 0 = true := by
  obtain ⟨old, hget⟩ := getElem?_of_lt hin
  refine ⟨_, out, addIsaExtensionA_eq CSR_mcpuid data out old hget, rfl, rfl,
    (old ||| 1) % 2 ^ csrBits, ?_, or_one_mod_testBit_zero old⟩
  exact getElem?_set_self_of_some hget

theorem addIsaExtensionA_out_unchanged_witness :
    ∃ data' out', addIsaExtensionA 0 (⟨[4, 8], ()⟩ : CpuDataType Unit) [10, 20, 30]
        = some (data', out') ∧
      out' = [10, 20, 30] ∧ out'.length = [10, 20, 30].length + 0 ∧
      ∃ new, data'.csr[0]? = some new ∧ new.testBit 0 = true :=
  addIsaExtensionA_out_unchanged 0 ⟨[4, 8], ()⟩ [10, 20, 30] (by decide)

/-- C3: when the capability register exists, a first call returns some state
`(data1, out)` and a second call on that state returns exactly `(data1, out)`
again; so two calls in a row equal one call, and neither call appends a
descriptor. -/
theorem addIsaExtensionA_idempotent {ρ δ : Type} (CSR_mcpuid : Nat)
    (data : CpuDataType ρ) (out : AttributeType δ)
    (hin : CSR_mcpuid < data.csr.length) :
    (∃ data1, addIsaExtensionA CSR_mcpuid data out = some (data1, out) ∧
      addIsaExtensionA CSR_mcpuid data1 out = some (data1, out)) ∧
    (addIsaExtensionA CSR_mcpuid data out).bind
        (fun s => addIsaExtensionA CSR_mcpuid s.1 s.2)
      = addIsaExtensionA CSR_mcpuid data out := by
  obtain ⟨old, hget⟩ := getElem?_of_lt hin
  have h1 := addIsaExtensionA_eq CSR_mcpuid data out old hget
  have hget1 : (data.csr.set CSR_mcpuid ((old ||| 1) % 2 ^ csrBits))[CSR_mcpuid]?
      = some ((old ||| 1) % 2 ^ csrBits) := getElem?_set_self_of_some hget
  have h2 := addIsaExtensionA_eq CSR_mcpuid
    ({ data with csr := data.csr.set CSR_mcpuid ((old ||| 1) % 2 ^ csrBits) } : CpuDataType ρ)
    out _ hget1
  have hval : (((old ||| 1) % 2 ^ csrBits) ||| 1) % 2 ^ csrBits = (old ||| 1) % 2 ^ csrBits := by
    rw [or_mod_or_mod, Nat.lor_assoc, Nat.or_self]
  simp only [List.set_set, hval] at h2
  refine ⟨⟨_, h1, h2⟩, ?_⟩
  rw [h1, Option.some_bind]
  exact h2

theorem addIsaExtensionA_idempotent_witness :
    (∃ data1, addIsaExtensionA 2 (⟨[0, 1, 6], true⟩ : CpuDataType Bool) [5]
        = some (data1, [5]) ∧
      addIsaExtensionA 2 data1 [5] = some (data1, [5])) ∧
    (addIsaExtensionA 2 (⟨[0, 1, 6], true⟩ : CpuDataType Bool) [5]).bind
        (fun s => addIsaExtensionA 2 s.1 s.2)
      = addIsaExtensionA 2 (⟨[0, 1, 6], true⟩ : CpuDataType Bool) [5] :=
  addIsaExtensionA_idempotent 2 ⟨[0, 1, 6], true⟩ [5] (by decide)

/-- C4: when the CSR array contains index `CSR_mcpuid`, the call returns a
result state (it is never `none`); a CPU state whose registers are all 64-bit
stays so; and for a 64-bit register value the OR with the mask is itself below
`2 ^ 64`, so the store does not wrap. -/
theorem addIsaExtensionA_cannot_fail {ρ δ : Type} (CSR_mcpuid : Nat)
    (data : CpuDataType ρ) (out : AttributeType δ)
    (hin : CSR_mcpuid < data.csr.length) :
    (∃ data', addIsaExtensionA CSR_mcpuid data out = some (data', out)) ∧
    addIsaExtensionA CSR_mcpuid data out ≠ none ∧
    (data.wf → ∀ data' out', addIsaExtensionA CSR_mcpuid data out = some (data', out') →
      data'.wf) ∧
    (∀ old, data.csr[CSR_mcpuid]? = some old → old < 2 ^ csrBits →
      old ||| extMaskA < 2 ^ csrBits ∧
      (old ||| extMaskA) % 2 ^ csrBits = old ||| extMaskA) := by
  obtain ⟨old, hget⟩ := getElem?_of_lt hin
  have h1 := addIsaExtensionA_eq CSR_mcpuid data out old hget
  refine ⟨⟨_, h1⟩, ?_, ?_, ?_⟩
  · rw [h1]
    exact Option.some_ne_none _
  · intro hw data' out' hres
    rw [h1] at hres
    have hd := congrArg Prod.fst (Option.some.inj hres)
    simp only at hd
    rw [← hd]
    exact set_wf data CSR_mcpuid _ hw (Nat.mod_lt _ (by decide))
  · intro v _ hv
    rw [extMaskA_eq_one]
    exact ⟨or_one_lt hv, Nat.mod_eq_of_lt (or_one_lt hv)⟩

theorem addIsaExtensionA_cannot_fail_witness :
    (⟨[3, 18446744073709551615], ()⟩ : CpuDataType Unit).wf ∧
    (∃ data', addIsaExtensionA 1 (⟨[3, 18446744073709551615], ()⟩ : CpuDataType Unit) [7]
        = some (data', [7])) ∧
    addIsaExtensionA 1 (⟨[3, 18446744073709551615], ()⟩ : CpuDataType Unit) [7] ≠ none ∧
    ((⟨[3, 18446744073709551615], ()⟩ : CpuDataType Unit).wf →
      ∀ data' out', addIsaExtensionA 1 (⟨[3, 18446744073709551615], ()⟩ : CpuDataType Unit) [7]
        = some (data', out') → data'.wf) ∧
    (∀ old, (⟨[3, 18446744073709551615], ()⟩ : CpuDataType Unit).csr[1]? = some old →
      old < 2 ^ csrBits →
      old ||| extMaskA < 2 ^ csrBits ∧
      (old ||| extMaskA) % 2 ^ csrBits = old ||| extMaskA) :=
  ⟨by decide, addIsaExtensionA_cannot_fail 1 ⟨[3, 18446744073709551615], ()⟩ [7] (by decide)⟩

/-- C5: when the capability register exists, the call returns a CPU state whose
`csr` array has the same size and the same value at every index other than
`CSR_mcpuid`, and whose remaining fields are those of the state before the
call. -/
theorem addIsaExtensionA_frame {ρ δ : Type} (CSR_mcpuid : Nat)
    (data : CpuDataType ρ) (out : AttributeType δ)
    (hin : CSR_mcpuid < data.csr.length) :
    ∃ data' out', addIsaExtensionA CSR_mcpuid data out = some (data', out') ∧
      (∀ i, i ≠ CSR_mcpuid → data'.csr[i]? = data.csr[i]?) ∧
      data'.csr.length = data.csr.length ∧
      data'.rest = data.rest := by
  obtain ⟨old, hget⟩ := getElem?_of_lt hin
  refine ⟨_, out, addIsaExtensionA_eq CSR_mcpuid data out old hget, ?_, ?_, rfl⟩
  · intro i hi
    exact List.getElem?_set_ne (Ne.symm hi)
  · exact List.length_set _ _ _

theorem addIsaExtensionA_frame_witness :
    ∃ data' out', addIsaExtensionA 1 (⟨[12, 2, 34], "pc"⟩ : CpuDataType String) [0]
        = some (data', out') ∧
      (∀ i, i ≠ 1 → data'.csr[i]? = [12, 2, 34][i]?) ∧
      data'.csr.length = [12, 2, 34].length ∧
      data'.rest = "pc" :=
  addIsaExtensionA_frame 1 ⟨[12, 2, 34], "pc"⟩ [0] (by decide)

/-- C6: when the capability register exists, OR-ing any mask `m` into it and
then calling the routine ends in the same state as calling the routine and then
OR-ing `m` into it, and that state exists; moreover every one of the 64 bits of
the register that was set before the call is still set after it. -/
theorem addIsaExtensionA_order_independent {ρ δ : Type} (CSR_mcpuid : Nat)
    (data : CpuDataType ρ) (out : AttributeType δ) (m : Nat)
    (hin : CSR_mcpuid < data.csr.length) :
    (∃ fin,
      (csrOrAssign data CSR_mcpuid m).bind (fun d => addIsaExtensionA CSR_mcpuid d out)
        = some (fin, out) ∧
      (addIsaExtensionA CSR_mcpuid data out).bind
          (fun s => (csrOrAssign s.1 CSR_mcpuid m).map (fun d => (d, s.2)))
        = some (fin, out)) ∧
    ∃ old new data', data.csr[CSR_mcpuid]? = some old ∧
      addIsaExtensionA CSR_mcpuid data out = some (data', out) ∧
      data'.csr[CSR_mcpuid]? = some new ∧
      ∀ k, k < csrBits → old.testBit k = true → new.testBit k = true := by
  obtain ⟨old, hget⟩ := getElem?_of_lt hin
  have h1 := addIsaExtensionA_eq CSR_mcpuid data out old hget
  have hL := csrOrAssign_csrOrAssign data CSR_mcpuid m extMaskA old hget
  have hR := csrOrAssign_csrOrAssign data CSR_mcpuid extMaskA m old hget
  have hcomm : ((old ||| extMaskA) ||| m) = ((old ||| m) ||| extMaskA) := by
    rw [Nat.lor_assoc, Nat.lor_comm extMaskA m, ← Nat.lor_assoc]
  rw [hcomm] at hR
  refine ⟨⟨{ data with
      csr := data.csr.set CSR_mcpuid (((old ||| m) ||| extMaskA) % 2 ^ csrBits) }, ?_, ?_⟩,
    old, (old ||| 1) % 2 ^ csrBits, _, hget, h1, getElem?_set_self_of_some hget, ?_⟩
  · cases hc : csrOrAssign data CSR_mcpuid m with
    | none => rw [hc] at hL; cases hL
    | some d =>
      rw [hc, Option.some_bind] at hL
      rw [Option.some_bind]
      unfold addIsaExtensionA
      rw [hL]
  · cases hc : csrOrAssign data CSR_mcpuid extMaskA with
    | none => rw [hc] at hR; cases hR
    | some d =>
      rw [hc, Option.some_bind] at hR
      unfold addIsaExtensionA
      rw [hc]
      simp only [Option.some_bind]
      rw [hR]
      rfl
  · intro k hk hb
    exact or_mod_testBit_of_testBit old 1 k hk hb

theorem addIsaExtensionA_order_independent_witness :
    (∃ fin,
      (csrOrAssign (⟨[0, 40], ()⟩ : CpuDataType Unit) 1 256).bind
          (fun d => addIsaExtensionA 1 d [2, 3])
        = some (fin, [2, 3]) ∧
      (addIsaExtensionA 1 (⟨[0, 40], ()⟩ : CpuDataType Unit) [2, 3]).bind
          (fun s => (csrOrAssign s.1 1 256).map (fun d => (d, s.2)))
        = some (fin, [2, 3])) ∧
    ∃ old new data', (⟨[0, 40], ()⟩ : CpuDataType Unit).csr[1]? = some old ∧
      addIsaExtensionA 1 (⟨[0, 40], ()⟩ : CpuDataType Unit) [2, 3] = some (data', [2, 3]) ∧
      data'.csr[1]? = some new ∧
      ∀ k, k < csrBits → old.testBit k = true → new.testBit k = true :=
  addIsaExtensionA_order_independent 1 ⟨[0, 40], ()⟩ [2, 3] 256 (by decide)

/-- C7: when the capability register exists, calls with two different output
collections both return, with the same resulting CPU state, each paired with
its own output collection. -/
theorem addIsaExtensionA_state_independent_of_out {ρ δ : Type} (CSR_mcpuid : Nat)
    (data : CpuDataType ρ) (out1 out2 : AttributeType δ)
    (hin : CSR_mcpuid < data.csr.length) :
    (∃ data', addIsaExtensionA CSR_mcpuid data out1 = some (data', out1) ∧
      addIsaExtensionA CSR_mcpuid data out2 = some (data', out2)) ∧
    (addIsaExtensionA CSR_mcpuid data out1).map Prod.fst
      = (addIsaExtensionA CSR_mcpuid data out2).map Prod.fst := by
  obtain ⟨old, hget⟩ := getElem?_of_lt hin
  have h1 := addIsaExtensionA_eq CSR_mcpuid data out1 old hget
  have h2 := addIsaExtensionA_eq CSR_mcpuid data out2 old hget
  refine ⟨⟨_, h1, h2⟩, ?_⟩
  rw [h1, h2]
  rfl

theorem addIsaExtensionA_state_independent_of_out_witness :
    (∃ data', addIsaExtensionA 0 (⟨[2], ()⟩ : CpuDataType Unit) ([] : AttributeType Nat)
        = some (data', []) ∧
      addIsaExtensionA 0 (⟨[2], ()⟩ : CpuDataType Unit) [1, 2, 3] = some (data', [1, 2, 3])) ∧
    (addIsaExtensionA 0 (⟨[2], ()⟩ : CpuDataType Unit) ([] : AttributeType Nat)).map Prod.fst
      = (addIsaExtensionA 0 (⟨[2], ()⟩ : CpuDataType Unit) [1, 2, 3]).map Prod.fst :=
  addIsaExtensionA_state_independent_of_out 0 ⟨[2], ()⟩ [] [1, 2, 3] (by decide)

end debugger
